import Mathlib

/-!
Verification of the ff-memless-next force-feedback core against its
interface definition (src/include/linux/input/ff-memless-next.h) and its
design specification. The repository ships only the interface header;
the core engine itself (registry, combination engine, uncombinable
lifecycle manager, scheduler, dispatcher) is therefore modelled from the
specification, faithful to its words, and the claims are settled against
that model.
-/

namespace Mlnx

/-! ## Uncombinable effect lifecycle (spec section 4.3) -/

/-- Modelled from the spec: the lifecycle states of an uncombinable
(conditional) effect, section 4.3 of the design: Idle (no hardware
residency), Uploading (UPLOAD issued, awaiting result), Resident-Stopped
(upload succeeded, not playing), Resident-Playing (START_UNCOMB issued).
The implementation file ff-memless-next.c is not in the repository. -/
inductive UncombState
  | idle
  | uploading
  | residentStopped
  | residentPlaying
deriving DecidableEq, Repr

/-- The kinds of commands of the uncombinable-effect protocol, mirroring
MLNX_UPLOAD_UNCOMB, MLNX_START_UNCOMB, MLNX_STOP_UNCOMB and
MLNX_ERASE_UNCOMB of enum mlnx_commands in ff-memless-next.h. -/
inductive UCmdKind
  | upload
  | startU
  | stopU
  | eraseU
deriving DecidableEq, Repr

/-- One invocation of the back-end callback for an uncombinable effect:
the lifecycle state the effect was in when the command was issued, the
command kind, and the result returned by the back-end (zero for success,
non-zero for failure; per the header only UPLOAD may fail). -/
structure Issued where
  atState : UncombState
  kind : UCmdKind
  result : Nat
deriving DecidableEq, Repr

/-- Modelled from the spec: the triggers that drive the lifecycle state
machine of one uncombinable effect (section 4.3): userspace start (with
the back-end result the UPLOAD would receive), userspace update (whether
the parameters changed, and the result a re-issued UPLOAD would
receive), userspace stop, userspace erase, and natural expiry. The
back-end result is carried by the event because the callback is invoked
synchronously (section 5). -/
inductive UncombEvent
  | start (res : Nat)
  | update (changed : Bool) (res : Nat)
  | stop
  | eraseReq
  | expire
deriving DecidableEq, Repr

/-- Output of one lifecycle transition: the new state, the sequence of
back-end callback invocations made during the transition (in issue
order), and the result surfaced to the original caller (zero except when
a failed UPLOAD is surfaced as a start failure). -/
structure StepOut where
  state : UncombState
  issued : List Issued
  toCaller : Nat
deriving DecidableEq, Repr

/-- Modelled from the spec: the per-effect transition function of the
Uncombinable Lifecycle Manager (section 4.3). Start of a non-resident
effect issues UPLOAD; on success the effect becomes Resident-Stopped and
START_UNCOMB is immediately issued, reaching Resident-Playing; on
failure the effect remains Idle and the failure is surfaced to the
caller. Update with changed parameters re-issues UPLOAD and
START_UNCOMB as if freshly started. Stop while playing issues
STOP_UNCOMB. Erase of a playing effect first issues STOP_UNCOMB, then
ERASE; erase of a stopped resident effect issues ERASE directly. Expiry
behaves as stop followed by erase. -/
def uncombStep : UncombState → UncombEvent → StepOut
  | .idle, .start res =>
      if res = 0 then
        ⟨.residentPlaying,
         [⟨.idle, .upload, res⟩, ⟨.residentStopped, .startU, 0⟩], 0⟩
      else
        ⟨.idle, [⟨.idle, .upload, res⟩], res⟩
  | .residentStopped, .start _ =>
      ⟨.residentPlaying, [⟨.residentStopped, .startU, 0⟩], 0⟩
  | .residentPlaying, .start _ =>
      ⟨.residentPlaying, [⟨.residentPlaying, .startU, 0⟩], 0⟩
  | .uploading, .start _ => ⟨.uploading, [], 0⟩
  | .idle, .update _ _ => ⟨.idle, [], 0⟩
  | .uploading, .update _ _ => ⟨.uploading, [], 0⟩
  | .residentStopped, .update changed res =>
      if changed then
        if res = 0 then
          ⟨.residentPlaying,
           [⟨.residentStopped, .upload, res⟩, ⟨.residentStopped, .startU, 0⟩], 0⟩
        else
          ⟨.idle, [⟨.residentStopped, .upload, res⟩], res⟩
      else ⟨.residentStopped, [], 0⟩
  | .residentPlaying, .update changed res =>
      if changed then
        if res = 0 then
          ⟨.residentPlaying,
           [⟨.residentPlaying, .upload, res⟩, ⟨.residentStopped, .startU, 0⟩], 0⟩
        else
          ⟨.idle, [⟨.residentPlaying, .upload, res⟩], res⟩
      else ⟨.residentPlaying, [], 0⟩
  | .residentPlaying, .stop =>
      ⟨.residentStopped, [⟨.residentPlaying, .stopU, 0⟩], 0⟩
  | .idle, .stop => ⟨.idle, [], 0⟩
  | .uploading, .stop => ⟨.uploading, [], 0⟩
  | .residentStopped, .stop => ⟨.residentStopped, [], 0⟩
  | .residentPlaying, .eraseReq =>
      ⟨.idle, [⟨.residentPlaying, .stopU, 0⟩, ⟨.residentStopped, .eraseU, 0⟩], 0⟩
  | .residentStopped, .eraseReq =>
      ⟨.idle, [⟨.residentStopped, .eraseU, 0⟩], 0⟩
  | .idle, .eraseReq => ⟨.idle, [], 0⟩
  | .uploading, .eraseReq => ⟨.uploading, [], 0⟩
  | .residentPlaying, .expire =>
      ⟨.idle, [⟨.residentPlaying, .stopU, 0⟩, ⟨.residentStopped, .eraseU, 0⟩], 0⟩
  | .residentStopped, .expire =>
      ⟨.idle, [⟨.residentStopped, .eraseU, 0⟩], 0⟩
  | .idle, .expire => ⟨.idle, [], 0⟩
  | .uploading, .expire => ⟨.uploading, [], 0⟩

/-- Run the lifecycle machine of one effect over a sequence of events,
collecting the full trace of back-end callback invocations. -/
def uncombRun : UncombState → List UncombEvent → UncombState × List Issued
  | s, [] => (s, [])
  | s, e :: es =>
      let out := uncombStep s e
      let rest := uncombRun out.state es
      (rest.1, out.issued ++ rest.2)

/-- An issued entry recording a successful UPLOAD. -/
def succUp (en : Issued) : Bool :=
  en.kind == .upload && en.result == 0

/-- Whether a lifecycle state is hardware-resident. -/
def isResident : UncombState → Bool
  | .residentStopped => true
  | .residentPlaying => true
  | _ => false

/-! ## Combination engine (spec section 4.2) and data model -/

/-- Modelled from the spec: a constant-force combinable effect held by
the Effect Registry: identifier, force along X and Y (the s32 fields of
struct mlnx_simple_force in ff-memless-next.h), and the
currently-playing flag of its playback window. -/
structure ConstEffect where
  id : Nat
  x : Int
  y : Int
  playing : Bool
deriving DecidableEq, Repr

/-- Modelled from the spec: a rumble effect held by the Effect Registry:
identifier, strong and weak vibration magnitudes and their directions
(mirroring struct mlnx_rumble_force: u32 magnitudes, u16 directions),
and the currently-playing flag. -/
structure RumbleEffect where
  id : Nat
  strong : Nat
  weak : Nat
  strongDir : Nat
  weakDir : Nat
  playing : Bool
deriving DecidableEq, Repr

/-- The currently-playing combinable effects of a registry snapshot. -/
def playingConsts (l : List ConstEffect) : List ConstEffect :=
  l.filter (·.playing)

/-- Modelled from the spec: the net combined force of one tick, the
exact componentwise vector sum of the (x, y) forces of all
currently-playing constant-force effects (section 4.2). -/
def combinedForce (l : List ConstEffect) : Int × Int :=
  (((playingConsts l).map (·.x)).sum, ((playingConsts l).map (·.y)).sum)

/-- Modelled from the spec: userspace stop of effect `i`: the registry
record is retained, its currently-playing flag is cleared (section 4.1). -/
def stopEffect (l : List ConstEffect) (i : Nat) : List ConstEffect :=
  l.map fun e => if e.id = i then { e with playing := false } else e

/-- Modelled from the spec: userspace parameter update of constant-force
effect `i`, taking effect at the next tick: the registry record's force
is replaced (section 4.1). -/
def updateConst (l : List ConstEffect) (i : Nat) (nx ny : Int) : List ConstEffect :=
  l.map fun e => if e.id = i then { e with x := nx, y := ny } else e

/-- Maximum representable rumble magnitude: the strong and weak fields of
struct mlnx_rumble_force are u32. -/
def U32MAX : Nat := 4294967295

/-- Modelled from the spec: saturating magnitude addition — magnitudes
are unsigned and saturate rather than overflow (section 4.2). -/
def satAdd (a b : Nat) : Nat := min (a + b) U32MAX

/-- The currently-playing rumble effects of a registry snapshot. -/
def playingRumbles (l : List RumbleEffect) : List RumbleEffect :=
  l.filter (·.playing)

/-- Modelled from the spec: the emitted strong magnitude, the saturating
arithmetic sum of the strong magnitudes of all playing rumble effects. -/
def strongSum (l : List RumbleEffect) : Nat :=
  ((playingRumbles l).map (·.strong)).foldl satAdd 0

/-- Modelled from the spec: the emitted weak magnitude, the saturating
arithmetic sum of the weak magnitudes of all playing rumble effects. -/
def weakSum (l : List RumbleEffect) : Nat :=
  ((playingRumbles l).map (·.weak)).foldl satAdd 0

/-- Modelled from the spec: fixed-point sine over the u16 angular
encoding of the upstream ff_effect direction field (0 .. 65535 is one
full turn), quarter-wave piecewise linear, exact at the four cardinal
directions where the unit vector has integer components; the scale
16384 stands for 1.0. The exact fixed-point table of the missing
ff-memless-next.c is not in the repository; the spec leaves the precise
formula open and requires only a polar-to-Cartesian decomposition. -/
def sin16 (a : Nat) : Int :=
  let b : Int := (a % 65536 : Nat)
  if b ≤ 16384 then b
  else if b ≤ 49152 then 32768 - b
  else b - 65536

/-- Modelled from the spec: fixed-point cosine over the u16 angular
encoding, the quarter-turn phase shift of sin16. -/
def cos16 (a : Nat) : Int := sin16 ((a + 16384) % 65536)

/-- Modelled from the spec: polar-to-Cartesian decomposition of one
direction/magnitude pair (section 4.2: convert to Cartesian before
summation), in units of 1/16384. -/
def dirCart (dir mag : Nat) : Int × Int :=
  ((mag : Int) * cos16 dir, (mag : Int) * sin16 dir)

/-- Modelled from the spec: the resultant strong-vibration vector: the
componentwise sum of the decomposed direction/magnitude pairs of all
playing rumble effects. -/
def strongVec (l : List RumbleEffect) : Int × Int :=
  ((playingRumbles l).map fun e => dirCart e.strongDir e.strong).foldl
    (fun p q => (p.1 + q.1, p.2 + q.2)) (0, 0)

/-- Modelled from the spec: the resultant weak-vibration vector,
analogous to strongVec. -/
def weakVec (l : List RumbleEffect) : Int × Int :=
  ((playingRumbles l).map fun e => dirCart e.weakDir e.weak).foldl
    (fun p q => (p.1 + q.1, p.2 + q.2)) (0, 0)

/-- Naive averaging of the raw angle values of the playing rumble
effects — what the spec says the core must NOT do. -/
def naiveAvgDir (l : List RumbleEffect) : Nat :=
  (((playingRumbles l).map (·.strongDir)).sum) / (playingRumbles l).length

/-! ## Scheduler interval floor (spec section 4.4, header lines 140-149) -/

/-- The enforced recomputation-interval floor in milliseconds: the
header documents that the update rate will never be lower than
(CONFIG_HZ / 1000) + 1. `hz` stands for CONFIG_HZ. -/
def minInterval (hz : Nat) : Nat := hz / 1000 + 1

/-- Modelled from the spec: the effective recomputation interval — a
requested interval below the floor is silently clamped to the floor,
never rejected. -/
def effectiveInterval (hz req : Nat) : Nat := max (minInterval hz) req

/-- The update_rate parameter of input_ff_create_mlnx is a u16: the
requested interval in milliseconds, reduced to the u16 range. -/
def reqOfU16 (n : Nat) : Nat := n % 65536

/-- Modelled from the spec: the registration entry point, as far as the
interval is concerned: it clamps the requested u16 interval to the floor
and succeeds — an interval below the floor is never a reason for a
registration failure. -/
def registerInterval (hz n : Nat) : Nat × Bool :=
  (effectiveInterval hz (reqOfU16 n), true)

/-! ## Command dispatcher and the tick (spec sections 4.5 and 5) -/

/-- The outbound command protocol, mirroring enum mlnx_commands of
ff-memless-next.h together with the payload each tag carries (struct
mlnx_effect_command): a simple force for the combined channel, rumble
magnitudes and directions, or an uncombinable-effect reference. -/
inductive MCmd
  | startCombined (x y : Int)
  | stopCombined
  | startRumble (strong weak : Nat) (svec wvec : Int × Int)
  | stopRumble
  | uploadUncomb (id : Nat) (res : Nat)
  | startUncomb (id : Nat)
  | stopUncomb (id : Nat)
  | eraseUncomb (id : Nat)
deriving DecidableEq, Repr

/-- The dispatch category of a command: uncombinable transitions are
serialized first, then the combined channel, then rumble. -/
def mrank : MCmd → Nat
  | .uploadUncomb _ _ => 0
  | .startUncomb _ => 0
  | .stopUncomb _ => 0
  | .eraseUncomb _ => 0
  | .startCombined _ _ => 1
  | .stopCombined => 1
  | .startRumble _ _ _ _ => 2
  | .stopRumble => 2

/-- Translate one issued lifecycle command of effect `i` to the outbound
protocol. -/
def toMCmd (i : Nat) (en : Issued) : MCmd :=
  match en.kind with
  | .upload => .uploadUncomb i en.result
  | .startU => .startUncomb i
  | .stopU => .stopUncomb i
  | .eraseU => .eraseUncomb i

/-- Modelled from the spec: the whole core state the tick serializes
over — the Effect Registry's constant-force and rumble records and the
lifecycle state of each tracked uncombinable effect, keyed by
identifier. -/
structure MlnxState where
  consts : List ConstEffect
  rumbles : List RumbleEffect
  uncombs : List (Nat × UncombState)
deriving DecidableEq, Repr

/-- Advance the lifecycle machine of effect `i` inside the keyed state
list; an unknown identifier is a not-found condition with no state
change and no command (spec section 7 (c)). -/
def stepAssoc (us : List (Nat × UncombState)) (i : Nat) (ev : UncombEvent) :
    List (Nat × UncombState) × List MCmd :=
  match us.lookup i with
  | none => (us, [])
  | some s =>
      let out := uncombStep s ev
      (us.map fun p => if p.1 = i then (i, out.state) else p,
       out.issued.map (toMCmd i))

/-- Drain the deferred userspace requests of one tick through the
lifecycle machines, in arrival order, concatenating the decided
commands. -/
def drainUncomb (us : List (Nat × UncombState)) :
    List (Nat × UncombEvent) → List (Nat × UncombState) × List MCmd
  | [] => (us, [])
  | (i, ev) :: rest =>
      let out := stepAssoc us i ev
      let more := drainUncomb out.1 rest
      (more.1, out.2 ++ more.2)

/-- Modelled from the spec: the combined-channel decision of one tick —
if the set of currently-playing combinable effects is empty, emit
STOP_COMBINED; otherwise emit START_COMBINED with the freshly computed
sum (section 4.2). The decision reads only the current registry
snapshot: there is no previous-emission input, so the sum is emitted
even when numerically unchanged. -/
def combDecision (l : List ConstEffect) : MCmd :=
  if playingConsts l = [] then .stopCombined
  else .startCombined (combinedForce l).1 (combinedForce l).2

/-- Modelled from the spec: the rumble-channel decision of one tick,
analogous to the combined channel (section 4.2). The direction payload
is carried as the Cartesian resultant of the vector decomposition; the
spec leaves the polar re-encoding of the resultant open (section 9). -/
def rumbleDecision (l : List RumbleEffect) : MCmd :=
  if playingRumbles l = [] then .stopRumble
  else .startRumble (strongSum l) (weakSum l) (strongVec l) (weakVec l)

/-- Modelled from the spec: one scheduler tick (sections 4.4, 4.5, 5):
drain the deferred uncombinable-effect requests through the Lifecycle
Manager, then invoke the back-end exactly once per decided command, in
the order uncombinable transitions first, then the combined channel,
then rumble. -/
def tick (st : MlnxState) (pend : List (Nat × UncombEvent)) :
    MlnxState × List MCmd :=
  let u := drainUncomb st.uncombs pend
  ({ st with uncombs := u.1 },
   u.2 ++ [combDecision st.consts] ++ [rumbleDecision st.rumbles])

/-! ## Trace scanners for the protocol-ordering invariants -/

/-- Whether a successful UPLOAD has been seen after scanning a trace,
starting from `seen`. -/
def seenScan (seen : Bool) (tr : List Issued) : Bool :=
  tr.foldl (fun b en => b || succUp en) seen

/-- Scanner for the header's invariant that START_UNCOMB and STOP_UNCOMB
are only sent after a successful UPLOAD: checks that every startU or
stopU entry of a trace is preceded by a successful UPLOAD (or `seen`
records one from an earlier trace). -/
def uploadedOk : Bool → List Issued → Bool
  | _, [] => true
  | seen, en :: rest =>
      (match en.kind with
       | .startU => seen
       | .stopU => seen
       | _ => true) && uploadedOk (seen || succUp en) rest

/-- One ERASE consumes one residency; a successful UPLOAD grants one. -/
def creditStep (c : Nat) (en : Issued) : Nat :=
  if succUp en then c + 1 else if en.kind == .eraseU then c - 1 else c

/-- The residency credit after scanning a trace. -/
def creditScan (c : Nat) (tr : List Issued) : Nat := tr.foldl creditStep c

/-- Scanner for "ERASE at most once per residency": every prefix of the
trace has at least as many successful UPLOADs as ERASEs. -/
def eraseBalanced : Nat → List Issued → Bool
  | _, [] => true
  | c, en :: rest =>
      if succUp en then eraseBalanced (c + 1) rest
      else if en.kind == .eraseU then decide (0 < c) && eraseBalanced (c - 1) rest
      else eraseBalanced c rest

/-- Events that constitute a fresh userspace start request (a start, or
an update with changed parameters, which the spec treats as a fresh
start for command purposes). -/
def freshStart : UncombEvent → Bool
  | .start _ => true
  | .update changed _ => changed
  | _ => false

theorem uncombRun_cons_fst (s : UncombState) (e : UncombEvent)
    (es : List UncombEvent) :
    (uncombRun s (e :: es)).1 = (uncombRun (uncombStep s e).state es).1 := rfl

theorem uncombRun_cons_snd (s : UncombState) (e : UncombEvent)
    (es : List UncombEvent) :
    (uncombRun s (e :: es)).2 =
      (uncombStep s e).issued ++ (uncombRun (uncombStep s e).state es).2 := rfl

theorem seenScan_append (seen : Bool) (t1 t2 : List Issued) :
    seenScan seen (t1 ++ t2) = seenScan (seenScan seen t1) t2 := by
  simp [seenScan, List.foldl_append]

theorem uploadedOk_append (t1 t2 : List Issued) (seen : Bool) :
    uploadedOk seen (t1 ++ t2) =
      (uploadedOk seen t1 && uploadedOk (seenScan seen t1) t2) := by
  induction t1 generalizing seen with
  | nil => simp [uploadedOk, seenScan]
  | cons en t ih =>
      simp [uploadedOk, seenScan, List.foldl, ih, Bool.and_assoc]

theorem uncombStep_uploadedOk (s : UncombState) (e : UncombEvent) (seen : Bool)
    (h : isResident s = true → seen = true) :
    uploadedOk seen (uncombStep s e).issued = true ∧
      (isResident (uncombStep s e).state = true →
        seenScan seen (uncombStep s e).issued = true) := by
  cases s <;> cases e <;>
    simp_all [uncombStep, uploadedOk, seenScan, succUp, isResident] <;>
    split_ifs <;>
    simp_all [uploadedOk, seenScan, succUp, List.foldl]

theorem uncombRun_uploadedOk (evs : List UncombEvent) :
    ∀ (s : UncombState) (seen : Bool), (isResident s = true → seen = true) →
      uploadedOk seen (uncombRun s evs).2 = true ∧
        (isResident (uncombRun s evs).1 = true →
          seenScan seen (uncombRun s evs).2 = true) := by
  induction evs with
  | nil =>
      intro s seen h
      simp only [uncombRun, uploadedOk, seenScan, List.foldl]
      exact ⟨trivial, h⟩
  | cons e es ih =>
      intro s seen h
      have hstep := uncombStep_uploadedOk s e seen h
      have hrest := ih (uncombStep s e).state
        (seenScan seen (uncombStep s e).issued) hstep.2
      rw [uncombRun_cons_fst, uncombRun_cons_snd]
      constructor
      · rw [uploadedOk_append]
        simp [hstep.1, hrest.1]
      · intro hres
        rw [seenScan_append]
        exact hrest.2 hres

theorem uploadedOk_pos (tr : List Issued) :
    ∀ (seen : Bool), uploadedOk seen tr = true →
      ∀ (i : Nat) (hi : i < tr.length),
        ((tr.get ⟨i, hi⟩).kind = .startU ∨ (tr.get ⟨i, hi⟩).kind = .stopU) →
        seen = true ∨
          ∃ j, ∃ hj : j < tr.length, j < i ∧ succUp (tr.get ⟨j, hj⟩) = true := by
  induction tr with
  | nil =>
      intro seen _ i hi
      simp at hi
  | cons en rest ih =>
      intro seen h i hi hk
      rw [uploadedOk, Bool.and_eq_true] at h
      cases i with
      | zero =>
          left
          simp only [List.get] at hk
          rcases hk with hk | hk <;> rw [hk] at h <;> exact h.1
      | succ n =>
          have hn : n < rest.length := by
            simpa [Nat.succ_lt_succ_iff] using hi
          simp only [List.get] at hk
          rcases ih (seen || succUp en) h.2 n hn hk with hseen | ⟨j, hj, hlt, hsu⟩
          · rcases (by simpa using hseen : seen = true ∨ succUp en = true) with hs | hs
            · exact Or.inl hs
            · exact Or.inr ⟨0, Nat.succ_pos _, Nat.succ_pos _, hs⟩
          · exact Or.inr ⟨j + 1, Nat.succ_lt_succ hj, Nat.succ_lt_succ hlt, hsu⟩

theorem creditScan_append (c : Nat) (t1 t2 : List Issued) :
    creditScan c (t1 ++ t2) = creditScan (creditScan c t1) t2 := by
  simp [creditScan, List.foldl_append]

theorem eraseBalanced_append (t1 t2 : List Issued) (c : Nat) :
    eraseBalanced c (t1 ++ t2) =
      (eraseBalanced c t1 && eraseBalanced (creditScan c t1) t2) := by
  induction t1 generalizing c with
  | nil => simp [eraseBalanced, creditScan]
  | cons en t ih =>
      simp only [List.cons_append, eraseBalanced, creditScan, List.foldl, creditStep]
      split_ifs with h1 h2 <;>
        simp_all [creditScan, Bool.and_assoc]

theorem uncombStep_eraseBalanced (s : UncombState) (e : UncombEvent) (c : Nat)
    (h : isResident s = true → 0 < c) :
    eraseBalanced c (uncombStep s e).issued = true ∧
      (isResident (uncombStep s e).state = true →
        0 < creditScan c (uncombStep s e).issued) := by
  cases s <;> cases e <;>
    simp_all [uncombStep, eraseBalanced, creditScan, creditStep, succUp,
      isResident, List.foldl] <;>
    split_ifs <;>
    simp_all [eraseBalanced, creditScan, creditStep, succUp, List.foldl]

theorem uncombRun_eraseBalanced (evs : List UncombEvent) :
    ∀ (s : UncombState) (c : Nat), (isResident s = true → 0 < c) →
      eraseBalanced c (uncombRun s evs).2 = true ∧
        (isResident (uncombRun s evs).1 = true →
          0 < creditScan c (uncombRun s evs).2) := by
  induction evs with
  | nil =>
      intro s c h
      simp only [uncombRun, eraseBalanced, creditScan, List.foldl]
      exact ⟨trivial, h⟩
  | cons e es ih =>
      intro s c h
      have hstep := uncombStep_eraseBalanced s e c h
      have hrest := ih (uncombStep s e).state
        (creditScan c (uncombStep s e).issued) hstep.2
      rw [uncombRun_cons_fst, uncombRun_cons_snd]
      constructor
      · rw [eraseBalanced_append]
        simp [hstep.1, hrest.1]
      · intro hres
        rw [creditScan_append]
        exact hrest.2 hres

theorem uncombStep_erase_atState (s : UncombState) (e : UncombEvent) :
    ∀ en ∈ (uncombStep s e).issued, en.kind = .eraseU →
      en.atState = .residentStopped := by
  intro en hen hk
  cases s <;> cases e <;>
    simp only [uncombStep] at hen <;>
    (try split_ifs at hen) <;>
    aesop

theorem uncombRun_erase_atState (evs : List UncombEvent) :
    ∀ (s : UncombState), ∀ en ∈ (uncombRun s evs).2, en.kind = .eraseU →
      en.atState = .residentStopped := by
  induction evs with
  | nil =>
      intro s en hen
      simp [uncombRun] at hen
  | cons e es ih =>
      intro s en hen hk
      rw [uncombRun_cons_snd] at hen
      rcases List.mem_append.mp hen with hmem | hmem
      · exact uncombStep_erase_atState s e en hmem hk
      · exact ih (uncombStep s e).state en hmem hk

/-- C1: for every uncombinable effect and every reachable execution of
the core, a START_UNCOMB or STOP_UNCOMB command is only ever issued for
an effect whose UPLOAD previously completed successfully, and the
successful UPLOAD always precedes the first START_UNCOMB: in the trace
of any event sequence from Idle, every startU or stopU entry is
preceded, strictly earlier in the trace, by an UPLOAD entry with result
zero. -/
theorem C1_start_stop_uncomb_requires_successful_upload
    (evs : List UncombEvent) (i : Nat)
    (hi : i < (uncombRun .idle evs).2.length)
    (hk : (((uncombRun .idle evs).2.get ⟨i, hi⟩).kind = .startU ∨
           ((uncombRun .idle evs).2.get ⟨i, hi⟩).kind = .stopU)) :
    ∃ j, ∃ hj : j < (uncombRun .idle evs).2.length,
      j < i ∧ succUp ((uncombRun .idle evs).2.get ⟨j, hj⟩) = true := by
  have h := (uncombRun_uploadedOk evs .idle false (by decide)).1
  rcases uploadedOk_pos _ false h i hi hk with hfalse | hex
  · cases hfalse
  · exact hex

/-- Witness for C1 at the event sequence of a single successful start:
the trace is UPLOAD (result zero) then START_UNCOMB, and position 1 is a
startU preceded by the successful upload at position 0. -/
theorem C1_start_stop_uncomb_requires_successful_upload_witness :
    ∃ j, ∃ hj : j < (uncombRun .idle [.start 0]).2.length,
      j < 1 ∧ succUp ((uncombRun .idle [.start 0]).2.get ⟨j, hj⟩) = true :=
  C1_start_stop_uncomb_requires_successful_upload [.start 0] 1 (by decide)
    (Or.inl (by decide))

/-- C2: an ERASE command is only ever issued while the effect is in the
non-playing resident state (never in Resident-Playing, never in
Uploading), at most once per residency (every prefix of any trace from
Idle has at least as many successful UPLOADs as ERASEs), and erasing a
playing effect issues STOP_UNCOMB before the ERASE; an erase request
received while awaiting an upload result issues nothing. -/
theorem C2_erase_only_nonplaying_resident (evs : List UncombEvent) :
    eraseBalanced 0 (uncombRun .idle evs).2 = true ∧
    (∀ en ∈ (uncombRun .idle evs).2, en.kind = .eraseU →
      en.atState = .residentStopped) ∧
    (uncombStep .residentPlaying .eraseReq).issued =
      [⟨.residentPlaying, .stopU, 0⟩, ⟨.residentStopped, .eraseU, 0⟩] ∧
    (uncombStep .uploading .eraseReq).issued = [] := by
  refine ⟨(uncombRun_eraseBalanced evs .idle 0 (by decide)).1, ?_, rfl, rfl⟩
  exact uncombRun_erase_atState evs .idle

theorem uncombStep_nonupload_result (s : UncombState) (e : UncombEvent) :
    ∀ en ∈ (uncombStep s e).issued, en.kind ≠ .upload → en.result = 0 := by
  intro en hen hk
  cases s <;> cases e <;>
    simp only [uncombStep] at hen <;>
    (try split_ifs at hen) <;>
    aesop

theorem uncombRun_nonupload_result (evs : List UncombEvent) :
    ∀ (s : UncombState), ∀ en ∈ (uncombRun s evs).2, en.kind ≠ .upload →
      en.result = 0 := by
  induction evs with
  | nil =>
      intro s en hen
      simp [uncombRun] at hen
  | cons e es ih =>
      intro s en hen hk
      rw [uncombRun_cons_snd] at hen
      rcases List.mem_append.mp hen with hmem | hmem
      · exact uncombStep_nonupload_result s e en hmem hk
      · exact ih (uncombStep s e).state en hmem hk

theorem uncombRun_idle_quiescent (evs : List UncombEvent)
    (h : ∀ e ∈ evs, freshStart e = false) :
    uncombRun .idle evs = (.idle, []) := by
  induction evs with
  | nil => rfl
  | cons e es ih =>
      have he : freshStart e = false := h e (List.mem_cons_self e es)
      have hes : ∀ x ∈ es, freshStart x = false :=
        fun x hx => h x (List.mem_cons_of_mem e hx)
      have hstep : uncombStep .idle e = ⟨.idle, [], 0⟩ := by
        cases e <;> simp_all [uncombStep, freshStart]
      have h2 := uncombRun_cons_snd .idle e es
      have h1 := uncombRun_cons_fst .idle e es
      rw [hstep] at h1 h2
      rw [ih hes] at h1 h2
      simp at h1 h2
      rw [Prod.ext_iff]
      exact ⟨h1, h2⟩

/-- C3: only UPLOAD can fail — every non-UPLOAD entry of any trace from
Idle carries result zero; a failed UPLOAD leaves the effect in Idle with
the failure surfaced to the original caller as the start result; and
after a failed start, as long as no fresh userspace start request (and
no parameter-changing update) arrives, the core issues no further
command at all — in particular it never retries the UPLOAD and never
issues START_UNCOMB. -/
theorem C3_upload_failure_idle_no_retry (evs : List UncombEvent) (r : Nat) :
    (∀ en ∈ (uncombRun .idle evs).2, en.kind ≠ .upload → en.result = 0) ∧
    (r ≠ 0 → uncombStep .idle (.start r) =
      ⟨.idle, [⟨.idle, .upload, r⟩], r⟩) ∧
    (r ≠ 0 → (∀ e ∈ evs, freshStart e = false) →
      uncombRun .idle (.start r :: evs) = (.idle, [⟨.idle, .upload, r⟩])) := by
  refine ⟨uncombRun_nonupload_result evs .idle, ?_, ?_⟩
  · intro hr
    simp [uncombStep, hr]
  · intro hr hq
    have hstep : uncombStep .idle (.start r) = ⟨.idle, [⟨.idle, .upload, r⟩], r⟩ := by
      simp [uncombStep, hr]
    have h2 := uncombRun_cons_snd .idle (.start r) evs
    have h1 := uncombRun_cons_fst .idle (.start r) evs
    rw [hstep, uncombRun_idle_quiescent evs hq] at h1 h2
    simp at h1 h2
    rw [Prod.ext_iff]
    exact ⟨h1, h2⟩

/-- C5: a userspace parameter update of a resident uncombinable effect
(Resident-Playing or Resident-Stopped) with changed parameters always
re-issues UPLOAD — the UPLOAD is the first command of the transition, so
it precedes any subsequent START_UNCOMB for the updated parameters, and
when the re-upload succeeds the transition is exactly UPLOAD followed by
START_UNCOMB, as if freshly started. -/
theorem C5_update_reissues_upload (s : UncombState) (r : Nat)
    (h : isResident s = true) :
    (∃ rest, (uncombStep s (.update true r)).issued =
      ⟨s, .upload, r⟩ :: rest) ∧
    (r = 0 → (uncombStep s (.update true r)).issued =
      [⟨s, .upload, r⟩, ⟨.residentStopped, .startU, 0⟩]) := by
  cases s <;> simp_all [isResident] <;>
    constructor <;>
    first
      | (intro hr; simp [uncombStep, hr])
      | (by_cases hr : r = 0 <;> simp [uncombStep, hr])

/-- Witness for C5: updating a Resident-Playing effect with changed
parameters and a successful re-upload issues UPLOAD then START_UNCOMB. -/
theorem C5_update_reissues_upload_witness :
    (∃ rest, (uncombStep .residentPlaying (.update true 0)).issued =
      ⟨.residentPlaying, .upload, 0⟩ :: rest) ∧
    (0 = 0 → (uncombStep .residentPlaying (.update true 0)).issued =
      [⟨.residentPlaying, .upload, 0⟩, ⟨.residentStopped, .startU, 0⟩]) :=
  C5_update_reissues_upload .residentPlaying 0 (by decide)

theorem stopEffect_of_not_mem (l : List ConstEffect) (i : Nat)
    (h : i ∉ l.map (·.id)) : stopEffect l i = l := by
  induction l with
  | nil => rfl
  | cons a t ih =>
      simp only [List.map_cons, List.mem_cons, not_or] at h
      have ha : ¬ a.id = i := fun hc => h.1 hc.symm
      simp [stopEffect, ha]
      simpa [stopEffect] using ih h.2

theorem stopEffect_sum (f : ConstEffect → Int) :
    ∀ (l : List ConstEffect) (e : ConstEffect),
      (l.map (·.id)).Nodup → e ∈ l → e.playing = true →
      ((playingConsts (stopEffect l e.id)).map f).sum =
        ((playingConsts l).map f).sum - f e := by
  intro l
  induction l with
  | nil => intro e _ he _; simp at he
  | cons a t ih =>
      intro e hnd he hp
      rw [List.map_cons, List.nodup_cons] at hnd
      have hstop : stopEffect (a :: t) e.id =
          (if a.id = e.id then { a with playing := false } else a) ::
            stopEffect t e.id := rfl
      rcases List.mem_cons.mp he with rfl | het
      · rw [hstop, if_pos rfl, stopEffect_of_not_mem t e.id hnd.1]
        simp [playingConsts, List.filter_cons, hp]
      · have hne : ¬ a.id = e.id := fun hc =>
          hnd.1 (hc ▸ List.mem_map_of_mem (·.id) het)
        rw [hstop, if_neg hne]
        have hS := ih e hnd.2 het hp
        cases hap : a.playing
        · simpa [playingConsts, List.filter_cons, hap] using hS
        · simp [playingConsts, List.filter_cons, hap] at hS ⊢
          rw [hS]
          ring


/-- C4: the combined force of one tick is the exact componentwise vector
sum of the (x, y) values of all simultaneously playing constant-force
effects, and stopping any single playing effect (with distinct
identifiers in the registry) and recomputing yields exactly the previous
sum minus that effect's (x, y) contribution. -/
theorem C4_combined_force_exact_sum (l : List ConstEffect) (e : ConstEffect)
    (hnd : (l.map (·.id)).Nodup) (he : e ∈ l) (hp : e.playing = true) :
    combinedForce l =
      (((playingConsts l).map (·.x)).sum, ((playingConsts l).map (·.y)).sum) ∧
    combinedForce (stopEffect l e.id) =
      ((combinedForce l).1 - e.x, (combinedForce l).2 - e.y) := by
  refine ⟨rfl, ?_⟩
  have hx := stopEffect_sum (·.x) l e hnd he hp
  have hy := stopEffect_sum (·.y) l e hnd he hp
  simp only [combinedForce]
  rw [Prod.ext_iff]
  exact ⟨hx, hy⟩

/-- Witness for C4 at the spec's scenario: effects (x=50, y=0) and
(x=-20, y=10) both playing combine to (30, 10); stopping the first
yields (30 - 50, 10 - 0) = (-20, 10). -/
theorem C4_combined_force_exact_sum_witness :
    combinedForce [⟨1, 50, 0, true⟩, ⟨2, -20, 10, true⟩] =
      (((playingConsts [⟨1, 50, 0, true⟩, ⟨2, -20, 10, true⟩]).map (·.x)).sum,
       ((playingConsts [⟨1, 50, 0, true⟩, ⟨2, -20, 10, true⟩]).map (·.y)).sum) ∧
    combinedForce (stopEffect [⟨1, 50, 0, true⟩, ⟨2, -20, 10, true⟩] 1) =
      ((combinedForce [⟨1, 50, 0, true⟩, ⟨2, -20, 10, true⟩]).1 - 50,
       (combinedForce [⟨1, 50, 0, true⟩, ⟨2, -20, 10, true⟩]).2 - 0) :=
  C4_combined_force_exact_sum
    [⟨1, 50, 0, true⟩, ⟨2, -20, 10, true⟩] ⟨1, 50, 0, true⟩
    (by decide) (by decide) rfl


/-- C6: the effective recomputation interval never goes below the
enforced floor (CONFIG_HZ / 1000) + 1; a request below the floor is
silently clamped to the floor (registration still succeeds, it is never
rejected); and userspace updates arriving faster than a tick are
coalesced — applying two updates of the same effect before a tick is the
same registry, hence the same combined force, as applying only the
latest one: intermediate values are superseded, the latest update is
what gets combined, nothing is dropped. -/
theorem C6_interval_floor_and_coalescing (hz req : Nat)
    (l : List ConstEffect) (i : Nat) (x1 y1 x2 y2 : Int) :
    minInterval hz ≤ effectiveInterval hz req ∧
    (req < minInterval hz → effectiveInterval hz req = minInterval hz) ∧
    registerInterval hz req = (effectiveInterval hz (reqOfU16 req), true) ∧
    updateConst (updateConst l i x1 y1) i x2 y2 = updateConst l i x2 y2 ∧
    combinedForce (updateConst (updateConst l i x1 y1) i x2 y2) =
      combinedForce (updateConst l i x2 y2) := by
  have hover : updateConst (updateConst l i x1 y1) i x2 y2 =
      updateConst l i x2 y2 := by
    simp only [updateConst, List.map_map]
    congr 1
    funext e
    by_cases h : e.id = i <;> simp [h]
  exact ⟨le_max_left _ _, fun h => Nat.max_eq_left h.le, rfl, hover,
    by rw [hover]⟩

theorem tick_nil (st : MlnxState) :
    tick st [] = (st, [combDecision st.consts, rumbleDecision st.rumbles]) :=
  rfl

/-- C7: on a tick whose set of currently-playing combinable effects is
empty, the core emits STOP_COMBINED, and this is idempotent — ticking
twice in a row leaves the whole registry state unchanged and emits
STOP_COMBINED both times; on a tick whose set is non-empty the core
emits START_COMBINED with the freshly computed sum, and an immediately
repeated tick over the unchanged registry emits the numerically
identical START_COMBINED again (the decision reads only the registry
snapshot, never a previous emission). -/
theorem C7_stop_combined_idempotent (st : MlnxState) :
    (playingConsts st.consts = [] →
      combDecision st.consts = .stopCombined ∧
      tick st [] = (st, [.stopCombined, rumbleDecision st.rumbles]) ∧
      tick (tick st []).1 [] = (st, [.stopCombined, rumbleDecision st.rumbles])) ∧
    (playingConsts st.consts ≠ [] →
      combDecision st.consts =
        .startCombined (combinedForce st.consts).1 (combinedForce st.consts).2 ∧
      tick st [] = (st, [combDecision st.consts, rumbleDecision st.rumbles]) ∧
      tick (tick st []).1 [] =
        (st, [combDecision st.consts, rumbleDecision st.rumbles])) := by
  constructor
  · intro h
    have hc : combDecision st.consts = .stopCombined := by
      simp [combDecision, h]
    refine ⟨hc, ?_, ?_⟩ <;> simp only [tick_nil, hc]
  · intro h
    have hc : combDecision st.consts =
        .startCombined (combinedForce st.consts).1 (combinedForce st.consts).2 := by
      simp [combDecision, h]
    exact ⟨hc, tick_nil st, by rw [tick_nil]; exact tick_nil st⟩


theorem foldl_satAdd (l : List Nat) :
    ∀ acc, acc ≤ U32MAX → l.foldl satAdd acc = min (acc + l.sum) U32MAX := by
  induction l with
  | nil =>
      intro acc h
      simp [Nat.min_eq_left h]
  | cons a t ih =>
      intro acc h
      rw [List.foldl_cons, ih (satAdd acc a) (by simp [satAdd])]
      simp only [satAdd, List.sum_cons, U32MAX] at *
      omega

theorem foldl_pairAdd (l : List (Int × Int)) :
    ∀ p : Int × Int,
      l.foldl (fun p q => (p.1 + q.1, p.2 + q.2)) p =
        (p.1 + (l.map Prod.fst).sum, p.2 + (l.map Prod.snd).sum) := by
  induction l with
  | nil => intro p; simp
  | cons a t ih =>
      intro p
      rw [List.foldl_cons, ih]
      simp only [List.map_cons, List.sum_cons]
      rw [Prod.ext_iff]
      constructor <;> dsimp <;> ring

/-- C8: the emitted strong and weak rumble magnitudes are the arithmetic
sums of the individual magnitudes of all playing rumble effects,
saturated (not wrapped) at the maximum representable u32 magnitude — in
particular (strong=100, weak=50) and (strong=200, weak=80) combine to
(strong=300, weak=130) — and the emitted direction content is the
componentwise sum of the polar-to-Cartesian decompositions of the
individual direction/magnitude pairs (so it is additive over
concatenation), not a naive average of the raw angle values: for two
opposite equal-magnitude effects the decomposed resultant is the zero
vector while the naive angle average points perpendicular with a nonzero
resultant. -/
theorem C8_rumble_saturating_sum_vector_direction
    (l l2 : List RumbleEffect) :
    strongSum l = min (((playingRumbles l).map (·.strong)).sum) U32MAX ∧
    weakSum l = min (((playingRumbles l).map (·.weak)).sum) U32MAX ∧
    strongSum [⟨1, 100, 50, 0, 0, true⟩, ⟨2, 200, 80, 0, 0, true⟩] = 300 ∧
    weakSum [⟨1, 100, 50, 0, 0, true⟩, ⟨2, 200, 80, 0, 0, true⟩] = 130 ∧
    (strongVec l).1 =
      ((playingRumbles l).map fun e => (dirCart e.strongDir e.strong).1).sum ∧
    (strongVec l).2 =
      ((playingRumbles l).map fun e => (dirCart e.strongDir e.strong).2).sum ∧
    strongVec (l ++ l2) =
      ((strongVec l).1 + (strongVec l2).1, (strongVec l).2 + (strongVec l2).2) ∧
    strongVec [⟨1, 100, 0, 0, 0, true⟩, ⟨2, 100, 0, 32768, 0, true⟩] = (0, 0) ∧
    naiveAvgDir [⟨1, 100, 0, 0, 0, true⟩, ⟨2, 100, 0, 32768, 0, true⟩] = 16384 ∧
    dirCart 16384 200 ≠ (0, 0) := by
  have hproj : ∀ m : List RumbleEffect,
      (strongVec m).1 =
        ((playingRumbles m).map fun e => (dirCart e.strongDir e.strong).1).sum ∧
      (strongVec m).2 =
        ((playingRumbles m).map fun e => (dirCart e.strongDir e.strong).2).sum := by
    intro m
    unfold strongVec
    rw [foldl_pairAdd]
    constructor <;> simp only [List.map_map, zero_add] <;> rfl
  refine ⟨?_, ?_, by decide, by decide, (hproj l).1, (hproj l).2, ?_,
    by decide, by decide, by decide⟩
  · unfold strongSum
    rw [foldl_satAdd _ 0 (by simp [U32MAX])]
    simp
  · unfold weakSum
    rw [foldl_satAdd _ 0 (by simp [U32MAX])]
    simp
  · rw [Prod.ext_iff]
    have h1 := hproj (l ++ l2)
    have h2 := hproj l
    have h3 := hproj l2
    rw [h1.1, h1.2, h2.1, h2.2, h3.1, h3.2]
    simp [playingRumbles, List.filter_append]


theorem mrank_toMCmd (i : Nat) (en : Issued) : mrank (toMCmd i en) = 0 := by
  cases hk : en.kind <;> simp [toMCmd, hk, mrank]

theorem stepAssoc_rank0 (us : List (Nat × UncombState)) (i : Nat)
    (ev : UncombEvent) : ∀ c ∈ (stepAssoc us i ev).2, mrank c = 0 := by
  intro c hc
  unfold stepAssoc at hc
  rcases hlook : List.lookup i us with _ | s <;> simp only [hlook] at hc
  · simp at hc
  · simp only [List.mem_map] at hc
    rcases hc with ⟨en, _, rfl⟩
    exact mrank_toMCmd i en

theorem drainUncomb_rank0 (pend : List (Nat × UncombEvent)) :
    ∀ (us : List (Nat × UncombState)), ∀ c ∈ (drainUncomb us pend).2,
      mrank c = 0 := by
  induction pend with
  | nil =>
      intro us c hc
      simp [drainUncomb] at hc
  | cons p rest ih =>
      intro us c hc
      rw [show drainUncomb us (p :: rest) =
        ((drainUncomb (stepAssoc us p.1 p.2).1 rest).1,
         (stepAssoc us p.1 p.2).2 ++
           (drainUncomb (stepAssoc us p.1 p.2).1 rest).2) from rfl] at hc
      rcases List.mem_append.mp hc with hm | hm
      · exact stepAssoc_rank0 us p.1 p.2 c hm
      · exact ih (stepAssoc us p.1 p.2).1 c hm

theorem mrank_combDecision (l : List ConstEffect) :
    mrank (combDecision l) = 1 := by
  unfold combDecision
  split <;> rfl

theorem mrank_rumbleDecision (l : List RumbleEffect) :
    mrank (rumbleDecision l) = 2 := by
  unfold rumbleDecision
  split <;> rfl

theorem sorted_zeros_one_two (zs : List Nat) (h : ∀ z ∈ zs, z = 0) :
    List.Sorted (· ≤ ·) (zs ++ [1, 2]) := by
  induction zs with
  | nil => simp [List.sorted_cons]
  | cons z t ih =>
      rw [List.cons_append, List.sorted_cons]
      constructor
      · intro y hy
        have hz := h z (List.mem_cons_self z t)
        rcases List.mem_append.mp hy with hy | hy
        · rw [hz, h y (List.mem_cons_of_mem z hy)]
        · rw [hz]
          exact Nat.zero_le y
      · exact ih fun x hx => h x (List.mem_cons_of_mem z hx)

theorem tick_snd (st : MlnxState) (pend : List (Nat × UncombEvent)) :
    (tick st pend).2 =
      (drainUncomb st.uncombs pend).2 ++
        [combDecision st.consts] ++ [rumbleDecision st.rumbles] := rfl

/-- C9: within a single tick the back-end callback is invoked exactly
once per decided command, and the emitted command sequence is exactly
the uncombinable-effect transition commands (in per-effect decision
order) followed by the one combined-channel command followed by the one
rumble-channel command: the dispatch-category ranks of the emitted
sequence are sorted (uncombinable = 0 before combined = 1 before rumble
= 2), and each tick contains exactly one combined command and exactly
one rumble command. -/
theorem C9_dispatch_serialization_order (st : MlnxState)
    (pend : List (Nat × UncombEvent)) :
    (tick st pend).2 =
      (drainUncomb st.uncombs pend).2 ++
        [combDecision st.consts] ++ [rumbleDecision st.rumbles] ∧
    ((tick st pend).2.map mrank).Sorted (· ≤ ·) ∧
    ((tick st pend).2.countP fun c => mrank c == 1) = 1 ∧
    ((tick st pend).2.countP fun c => mrank c == 2) = 1 := by
  have hu := drainUncomb_rank0 pend st.uncombs
  refine ⟨tick_snd st pend, ?_, ?_, ?_⟩
  · rw [tick_snd, List.append_assoc, List.map_append]
    have : List.map mrank
        ([combDecision st.consts] ++ [rumbleDecision st.rumbles]) = [1, 2] := by
      simp [mrank_combDecision, mrank_rumbleDecision]
    rw [this]
    refine sorted_zeros_one_two _ ?_
    intro z hz
    rcases List.mem_map.mp hz with ⟨c, hc, rfl⟩
    exact hu c hc
  · rw [tick_snd, List.append_assoc, List.countP_append, List.countP_append]
    have h0 : ((drainUncomb st.uncombs pend).2.countP
        fun c => mrank c == 1) = 0 := by
      rw [List.countP_eq_zero]
      intro c hc
      simp [hu c hc]
    rw [h0]
    simp [List.countP_cons, mrank_combDecision, mrank_rumbleDecision]
  · rw [tick_snd, List.append_assoc, List.countP_append, List.countP_append]
    have h0 : ((drainUncomb st.uncombs pend).2.countP
        fun c => mrank c == 2) = 0 := by
      rw [List.countP_eq_zero]
      intro c hc
      simp [hu c hc]
    rw [h0]
    simp [List.countP_cons, mrank_combDecision, mrank_rumbleDecision]

/-- C10: the requested recomputation interval passed to the registration
entry point is an unsigned 16-bit millisecond value, so it can never
exceed 65535 ms, and as long as the floor (CONFIG_HZ / 1000) + 1 itself
is at most 65535 the effective interval after clamping lies between the
floor and 65535 milliseconds inclusive. -/
theorem C10_update_rate_u16_range (hz n : Nat)
    (hhz : minInterval hz ≤ 65535) :
    reqOfU16 n ≤ 65535 ∧
    minInterval hz ≤ (registerInterval hz n).1 ∧
    (registerInterval hz n).1 ≤ 65535 := by
  have hreq : reqOfU16 n ≤ 65535 := by
    unfold reqOfU16
    omega
  refine ⟨hreq, le_max_left _ _, ?_⟩
  exact max_le hhz hreq

/-- Witness for C10 at CONFIG_HZ = 1000 and a requested value of 70000,
which the u16 parameter reduces to 4464: the floor is 2 and the
effective interval lies within [2, 65535]. -/
theorem C10_update_rate_u16_range_witness :
    reqOfU16 70000 ≤ 65535 ∧
    minInterval 1000 ≤ (registerInterval 1000 70000).1 ∧
    (registerInterval 1000 70000).1 ≤ 65535 :=
  C10_update_rate_u16_range 1000 70000 (by decide)

end Mlnx
